import Mathlib

/-!
Verification development for the `eva_gen` front end: a shallow embedding of
`src/eva_gen/common/front_end/lexer.py`, `src/eva_gen/common/front_end/parser.py`
and `src/eva_gen/common/ast/nodes.py`, together with theorems settling the
frozen claims about the tokenizer, the recursive-descent parser, the AST
visitor protocol and the diagnostics rendering.

Python machine-level details that the claims do not depend on are embedded as
follows: source text is a `List Char`; the `re` patterns of the token table are
translated rule by rule into anchored matchers with Python's ordered-alternation
semantics; `float(value)` in `ValueNode.__init__` is abstracted by keeping the
literal text (the claims only compare literals whose float images are distinct
exactly when the texts are); unbounded recursion is driven by an explicit fuel
parameter, with an `OutOfFuel` outcome that is unreachable at the fuel values
used in the theorems.
-/

namespace EvaGen

/-! ### Character classes of the token-table regexes (`lexer.py`, `TOKENS`) -/

/-- First character of `IDENT`: the class `[a-zA-Z_]`. -/
def isIdentStart (c : Char) : Bool := c.isAlpha || c = '_'

/-- Continuation character of `IDENT`: the class `[a-zA-Z0-9_]`. -/
def isIdentChar (c : Char) : Bool := c.isAlphanum || c = '_'

/-- Hexadecimal digit of the `NUMBER` rule: the class `[0-9A-F]`. -/
def isHexDigit (c : Char) : Bool := c.isDigit || ('A' ≤ c && c ≤ 'F')

/-- Octal digit of the `NUMBER` rule: the class `[0-7]`. -/
def isOctDigit (c : Char) : Bool := '0' ≤ c && c ≤ '7'

/-- Character of the `_IGNORE` rule: the class `[ \t\n]`. -/
def isIgnoreChar (c : Char) : Bool := c = ' ' || c = '\t' || c = '\n'

/-! ### Anchored matchers, one per regex shape.
Each matcher consumes an anchored prefix (Python `pattern.match`) and returns
the pair (matched lexeme, remaining input), or `none`. -/

/-- Anchored literal match: succeeds exactly when the literal is a prefix,
returning the remaining input. -/
def matchLit : List Char → List Char → Option (List Char)
  | [], cs => some cs
  | _ :: _, [] => none
  | a :: as, c :: cs => if a = c then matchLit as cs else none

/-- A literal rule such as `var` or `**`: lexeme is the literal itself. -/
def litTok (lit : List Char) (cs : List Char) : Option (List Char × List Char) :=
  (matchLit lit cs).map (fun rest => (lit, rest))

/-- The `IDENT` rule `[a-zA-Z_][a-zA-Z0-9_]*` (greedy). -/
def matchIdent : List Char → Option (List Char × List Char)
  | [] => none
  | c :: cs =>
    if isIdentStart c then some (c :: cs.takeWhile isIdentChar, cs.dropWhile isIdentChar)
    else none

/-- First alternative of `NUMBER`: `[0-9]+(\.[0-9]+)?` with Python's greedy
semantics — a maximal digit run, extended by a fraction only when a `.`
followed by at least one digit comes next. -/
def matchDecimal : List Char → Option (List Char × List Char)
  | [] => none
  | c :: cs =>
    if c.isDigit then
      let ds := c :: cs.takeWhile Char.isDigit
      match cs.dropWhile Char.isDigit with
      | '.' :: r2 =>
        match r2 with
        | d :: _ =>
          if d.isDigit then some (ds ++ '.' :: r2.takeWhile Char.isDigit, r2.dropWhile Char.isDigit)
          else some (ds, '.' :: r2)
        | [] => some (ds, ['.'])
      | r1 => some (ds, r1)
    else none

/-- The `0x[0-9A-F]+` and `0o[0-7]+` alternatives of `NUMBER` (`tag` is `x`
or `o`, `digitP` the digit class): the two-character prefix `0x`/`0o`
followed by a greedy run of at least one digit of the class. -/
def matchRadix (tag : Char) (digitP : Char → Bool) (cs : List Char) :
    Option (List Char × List Char) :=
  match matchLit ['0', tag] cs with
  | none => none
  | some r =>
    match r with
    | d :: _ =>
      if digitP d then some ('0' :: tag :: r.takeWhile digitP, r.dropWhile digitP)
      else none
    | [] => none

/-- The `NUMBER` rule `([0-9]+(\.[0-9]+)?|0x[0-9A-F]+|0o[0-7]+)`: Python `re`
tries the alternatives left to right and commits to the first that matches. -/
def matchNumber (cs : List Char) : Option (List Char × List Char) :=
  match matchDecimal cs with
  | some r => some r
  | none =>
    match matchRadix 'x' isHexDigit cs with
    | some r => some r
    | none => matchRadix 'o' isOctDigit cs

/-- The `_IGNORE` rule `[ \t\n]+` (greedy). -/
def matchIgnore : List Char → Option (List Char × List Char)
  | [] => none
  | c :: cs =>
    if isIgnoreChar c then some (c :: cs.takeWhile isIgnoreChar, cs.dropWhile isIgnoreChar)
    else none

/-- The token kinds: the keys of the `TOKENS` dict, plus the parser's
pseudo-kinds `_SOI` and `_EOI`. -/
inductive TokKind where
  | UNOP | BIN_POWER | BIN_MULT | BIN_DIV | BIN_ADD | BIN_SUB
  | KW_VAR | KW_FUN | KW_WHILE | KW_RETURN | KW_EXTERN
  | IDENT | NUMBER | EQUALS
  | LESSTHAN | LESSEQUAL | GREATERTHAN | GREATEREQUAL
  | LEFT_PARENT | RIGHT_PARENT | LEFT_BRACE | RIGHT_BRACE | COMMA
  | IGNORE | SOI | EOI
deriving DecidableEq, Repr

/-- The ordered rule table `TOKENS` of `lexer.py` (a Python 3.7+ dict keeps
insertion order). `_IGNORE` is the `IGNORE` kind. -/
def TOKENS : List (TokKind × (List Char → Option (List Char × List Char))) :=
  [ (.UNOP, litTok ['n', 'o', 't'])
  , (.BIN_POWER, litTok ['*', '*'])
  , (.BIN_MULT, litTok ['*'])
  , (.BIN_DIV, litTok ['/'])
  , (.BIN_ADD, litTok ['+'])
  , (.BIN_SUB, litTok ['-'])
  , (.KW_VAR, litTok ['v', 'a', 'r'])
  , (.KW_FUN, litTok ['f', 'u', 'n'])
  , (.KW_WHILE, litTok ['w', 'h', 'i', 'l', 'e'])
  , (.KW_RETURN, litTok ['r', 'e', 't', 'u', 'r', 'n'])
  , (.KW_EXTERN, litTok ['e', 'x', 't', 'e', 'r', 'n'])
  , (.IDENT, matchIdent)
  , (.NUMBER, matchNumber)
  , (.EQUALS, litTok ['='])
  , (.LESSTHAN, litTok ['<'])
  , (.LESSEQUAL, litTok ['<', '='])
  , (.GREATERTHAN, litTok ['>'])
  , (.GREATEREQUAL, litTok ['>', '='])
  , (.LEFT_PARENT, litTok ['('])
  , (.RIGHT_PARENT, litTok [')'])
  , (.LEFT_BRACE, litTok ['\x7b'])
  , (.RIGHT_BRACE, litTok ['\x7d'])
  , (.COMMA, litTok [','])
  , (.IGNORE, matchIgnore) ]

/-- The `for k, v in TOKENS.items()` loop body of `Lexer.__next__`: the first
rule whose pattern matches at the current position wins. -/
def firstMatch :
    List (TokKind × (List Char → Option (List Char × List Char))) → List Char →
    Option (TokKind × List Char × List Char)
  | [], _ => none
  | (k, m) :: rs, cs =>
    match m cs with
    | some (lx, rest) => some (k, lx, rest)
    | none => firstMatch rs cs

/-- How a full tokenization run ends: end of input, the
`Cannot lex input code` error, or fuel exhaustion (unreachable at the fuel
used by `lexAll`). -/
inductive LexTail where
  | done | lexError | outOfFuel
deriving DecidableEq, Repr

/-- Repeatedly applying `Lexer.__next__`: emit the first-matching token, skip
`_IGNORE` matches, stop at end of input, fail when no rule matches. The
emitted tokens are collected together with the terminal outcome. -/
def lexGo : Nat → List Char → List (TokKind × List Char) × LexTail
  | _, [] => ([], .done)
  | 0, _ :: _ => ([], .outOfFuel)
  | fuel + 1, c :: cs =>
    match firstMatch TOKENS (c :: cs) with
    | none => ([], .lexError)
    | some (k, lx, rest) =>
      if k = .IGNORE then lexGo fuel rest
      else ((k, lx) :: (lexGo fuel rest).1, (lexGo fuel rest).2)

/-- The whole token sequence of an input. Every rule consumes at least one
character, so `cs.length` steps of fuel always suffice. -/
def lexAll (cs : List Char) : List (TokKind × List Char) × LexTail :=
  lexGo cs.length cs

example : lexAll ("var x".data) =
    ([(.KW_VAR, ['v', 'a', 'r']), (.IDENT, ['x'])], .done) := by decide

example : lexAll ("0x1A".data) =
    ([(.NUMBER, ['0']), (.IDENT, ['x', '1', 'A'])], .done) := by decide

/-! ### Position resolution (`Lexer.linecol_from_position`, `Lexer.get_line`) -/

/-- A 1-based (line, column) pair: the `LineCol` namedtuple. -/
abbrev LineCol := Nat × Nat

/-- Python `code.split("\n")`: the list of lines, never empty, with an empty
final entry when the text ends in a newline. -/
def splitNl : List Char → List (List Char)
  | [] => [[]]
  | c :: cs =>
    if c = '\n' then [] :: splitNl cs
    else
      match splitNl cs with
      | [] => [[c]]
      | l :: ls => (c :: l) :: ls

/-- The `for i, line in enumerate(lines)` loop of `linecol_from_position`:
returns the first line whose accumulated length reaches the offset, or `none`
when the loop falls through to the final fallback. -/
def linecolScan : List (List Char) → Nat → Nat → Nat → Option (Nat × Nat)
  | [], _, _, _ => none
  | line :: rest, i, curpos, position =>
    if position ≤ curpos + line.length then some (i + 1, position - curpos + 1)
    else linecolScan rest (i + 1) (curpos + line.length) position

/-- `Lexer.linecol_from_position`: scan the split lines accumulating only the
line lengths (the source does not count the newline separators), with the
fallback `(len(lines), len(lines[-1]))` when no line reaches the offset. -/
def linecol_from_position (code : List Char) (position : Nat) : Nat × Nat :=
  let lines := splitNl code
  match linecolScan lines 0 0 position with
  | some lc => lc
  | none => (lines.length, (lines.getLastD []).length)

/-- `Lexer.get_line`: the 1-based line `lineno` of the source. The Python
code raises `ValueError` on an out-of-range line number; every line number
produced by `linecol_from_position` is in range, so the default here is
unreachable in the embedded pipeline. -/
def get_line (code : List Char) (lineno : Nat) : List Char :=
  (splitNl code).getD (lineno - 1) []

example : linecol_from_position ("1 = 2".data) 5 = (1, 6) := by decide
example : linecol_from_position ("a\nb".data) 2 = (2, 2) := by decide

/-! ### Diagnostics rendering (`ParseError.__init__`) -/

/-- Decimal digit list of a natural number, matching Python `str(n)` for the
non-negative line numbers that occur here. -/
def decDigits (n : Nat) : List Char :=
  if _h : n < 10 then [Nat.digitChar n]
  else decDigits (n / 10) ++ [Nat.digitChar (n % 10)]
decreasing_by exact Nat.div_lt_self (by omega) (by omega)

/-- Number of decimal digits of a natural number (the claim's
digit-count). -/
def digitCount (n : Nat) : Nat :=
  if _h : n < 10 then 1 else digitCount (n / 10) + 1
decreasing_by exact Nat.div_lt_self (by omega) (by omega)

/-- `ParseError.__init__`: the rendered diagnostic
`f"{message}\n{line_str}| {line}\n{caret}"` with
`line_str = str(position.line)` and
`caret = ' ' * (position.col + len(line_str)) + '^'`. -/
def renderParseError (message line : List Char) (position : Nat × Nat) : List Char :=
  message ++ '\n' :: (decDigits position.1 ++ '|' :: ' ' :: line)
    ++ '\n' :: (List.replicate (position.2 + (decDigits position.1).length) ' ' ++ ['^'])

/-! ### AST node model (`nodes.py`) -/

/-- `BinaryOperation` enum. -/
inductive BinaryOperation where
  | ADD | SUB | MULT | DIV | POWER | AND | OR
deriving DecidableEq, Repr

/-- `UnaryOperation` enum. -/
inductive UnaryOperation where
  | PRINT | NOT
deriving DecidableEq, Repr

/-- `UnaryOperation(op)` on a lexeme: the enum member whose value is the
string, as used by `Parser.parse_expr_unary` (any other lexeme raises
`ValueError`). -/
def unaryOperationOfLexeme (op : List Char) : Option UnaryOperation :=
  if op = ("print").data then some .PRINT
  else if op = ("not").data then some .NOT
  else none

/-- A `Span`: the pair of the `start` and `end` positions. -/
abbrev Span := LineCol × LineCol

/-- The node classes of `nodes.py`, with their constructor fields in source
order. `ValueNode` keeps the literal text that `float(value)` is applied to. -/
inductive Node where
  | DeclarationNode (span : Span) (ident : List Char)
  | AssignmentNode (span : Span) (ident : List Char) (expr : Node)
  | ValueNode (span : Span) (value : List Char)
  | BinaryOperationNode (span : Span) (left : Node) (op : BinaryOperation) (right : Node)
  | UnaryOperationNode (span : Span) (op : UnaryOperation) (operand : Node)
  | ReturnStatementNode (span : Span) (expr : Node)
  | CodeBlockNode (span : Span) (block : List Node)
  | WhileNode (span : Span) (condition : Node) (block : Node)
  | IdentNode (span : Span) (ident : List Char)
  | FunctionNode (span : Span) (name : List Char) (args : List Node) (block : Node)
  | ExternFunctionNode (span : Span) (name : List Char) (args : List Node)
  | FunctionCallNode (span : Span) (ident : List Char) (args : List Node)
deriving Repr

/-- The span of a node. -/
def Node.span : Node → Span
  | .DeclarationNode s _ => s
  | .AssignmentNode s _ _ => s
  | .ValueNode s _ => s
  | .BinaryOperationNode s _ _ _ => s
  | .UnaryOperationNode s _ _ => s
  | .ReturnStatementNode s _ => s
  | .CodeBlockNode s _ => s
  | .WhileNode s _ _ => s
  | .IdentNode s _ => s
  | .FunctionNode s _ _ _ => s
  | .ExternFunctionNode s _ _ => s
  | .FunctionCallNode s _ _ => s

/-- The sequence of nodes a recording callback observes when `node.visit` is
called, translated method by method from `nodes.py`: classes without a `visit`
override (`DeclarationNode`, `AssignmentNode`, `ValueNode`, `IdentNode`) use
`BaseNode.visit`, which invokes the callback on the node alone; each override
invokes the callback directly on the fields listed in its body (it does not
recurse into them) and then on the node itself via `super().visit`. -/
def visitList (n : Node) : List Node :=
  match n with
  | .DeclarationNode _ _ => [n]
  | .AssignmentNode _ _ _ => [n]
  | .ValueNode _ _ => [n]
  | .BinaryOperationNode _ l _ r => [l, r, n]
  | .UnaryOperationNode _ _ o => [o, n]
  | .ReturnStatementNode _ e => [e, n]
  | .CodeBlockNode _ bs => bs ++ [n]
  | .WhileNode _ c b => [c, b, n]
  | .IdentNode _ _ => [n]
  | .FunctionNode _ _ args b => args ++ [b, n]
  | .ExternFunctionNode _ _ args => args ++ [n]
  | .FunctionCallNode _ _ args => args ++ [n]

mutual

/-- The sequence a whole-tree post-order traversal would produce, following
the claim's words: for each composite node, every node of every child subtree
(children in the node's natural left-to-right field order) before the node
itself; a leaf yields only itself. -/
def postOrder (n : Node) : List Node :=
  match n with
  | .DeclarationNode _ _ => [n]
  | .AssignmentNode _ _ e => postOrder e ++ [n]
  | .ValueNode _ _ => [n]
  | .BinaryOperationNode _ l _ r => postOrder l ++ postOrder r ++ [n]
  | .UnaryOperationNode _ _ o => postOrder o ++ [n]
  | .ReturnStatementNode _ e => postOrder e ++ [n]
  | .CodeBlockNode _ bs => postOrderList bs ++ [n]
  | .WhileNode _ c b => postOrder c ++ postOrder b ++ [n]
  | .IdentNode _ _ => [n]
  | .FunctionNode _ _ args b => postOrderList args ++ postOrder b ++ [n]
  | .ExternFunctionNode _ _ args => postOrderList args ++ [n]
  | .FunctionCallNode _ _ args => postOrderList args ++ [n]

/-- Concatenated post-order sequences of a list of subtrees. -/
def postOrderList : List Node → List Node
  | [] => []
  | n :: ns => postOrder n ++ postOrderList ns

end

/-- Number of nodes of a whole tree. -/
def countNodes (n : Node) : Nat := (postOrder n).length

/-! ### The parser (`parser.py`) -/

/-- The Python name of a token kind, as interpolated into the
`Unexpected token …` messages. -/
def kindStr : TokKind → List Char
  | .UNOP => ("UNOP").data
  | .BIN_POWER => ("BIN_POWER").data
  | .BIN_MULT => ("BIN_MULT").data
  | .BIN_DIV => ("BIN_DIV").data
  | .BIN_ADD => ("BIN_ADD").data
  | .BIN_SUB => ("BIN_SUB").data
  | .KW_VAR => ("KW_VAR").data
  | .KW_FUN => ("KW_FUN").data
  | .KW_WHILE => ("KW_WHILE").data
  | .KW_RETURN => ("KW_RETURN").data
  | .KW_EXTERN => ("KW_EXTERN").data
  | .IDENT => ("IDENT").data
  | .NUMBER => ("NUMBER").data
  | .EQUALS => ("EQUALS").data
  | .LESSTHAN => ("LESSTHAN").data
  | .LESSEQUAL => ("LESSEQUAL").data
  | .GREATERTHAN => ("GREATERTHAN").data
  | .GREATEREQUAL => ("GREATEREQUAL").data
  | .LEFT_PARENT => ("LEFT_PARENT").data
  | .RIGHT_PARENT => ("RIGHT_PARENT").data
  | .LEFT_BRACE => ("LEFT_BRACE").data
  | .RIGHT_BRACE => ("RIGHT_BRACE").data
  | .COMMA => ("COMMA").data
  | .IGNORE => ("_IGNORE").data
  | .SOI => ("_SOI").data
  | .EOI => ("_EOI").data

/-- A failure of the embedded pipeline: a raised `ParseError` (message,
offending source line, resolved position), the `ValueError` of an unknown
`UnaryOperation` value, or fuel exhaustion (unreachable at the fuel used in
the theorems). -/
inductive PErr where
  | ParseError (msg : List Char) (line : List Char) (position : LineCol)
  | ValueError
  | OutOfFuel
deriving DecidableEq, Repr

/-- Outcome of `next(self.lexer)` as the parser sees it: a token, the end of
the stream (`StopIteration`), or a raised lexer error. The remaining input
after the call is carried along (whitespace may be consumed even when
`StopIteration` is raised). -/
inductive NextRes where
  | tok (k : TokKind) (lexeme : List Char) (rest : List Char)
  | eof (rest : List Char)
  | err (e : PErr)
deriving Repr

/-- The lex error `ParseError(f"Cannot lex input code", self.cur_line,
self.linecol)` raised at the current consumption offset. -/
def mkLexError (code rest : List Char) : PErr :=
  let lc := linecol_from_position code (code.length - rest.length)
  .ParseError (("Cannot lex input code").data) (get_line code lc.1) lc

/-- `Lexer.__next__` with the go-again loop unrolled into recursion on the
rest of the input: skip `_IGNORE` matches, return the first real token,
`StopIteration` on exhausted input, `ParseError` when no rule matches. -/
def nextTokGo (code : List Char) : Nat → List Char → NextRes
  | _, [] => .eof []
  | 0, _ :: _ => .err .OutOfFuel
  | fuel + 1, c :: cs =>
    match firstMatch TOKENS (c :: cs) with
    | none => .err (mkLexError code (c :: cs))
    | some (k, lx, rest) =>
      if k = .IGNORE then nextTokGo code fuel rest
      else .tok k lx rest

/-- One `next(self.lexer)` call: `rest.length` fuel always suffices. -/
def nextTok (code rest : List Char) : NextRes := nextTokGo code rest.length rest

/-- The parser state: the lexer's remaining input (`self.lexer.rest`) and the
single lookahead token (`self.token`). The immutable source `code` is passed
separately. -/
structure PSt where
  rest : List Char
  tok : TokKind × List Char
deriving Repr

/-- `Parser.position`: `self.lexer.linecol`, the line/column of the lexer's
current consumption offset `len(code) - len(rest)`. -/
def position (code : List Char) (st : PSt) : LineCol :=
  linecol_from_position code (code.length - st.rest.length)

/-- `Lexer.cur_line`: the source line at the current position. -/
def cur_line (code : List Char) (st : PSt) : List Char :=
  get_line code (position code st).1

/-- `Parser.eat`: consume a required token kind and advance the lookahead
(`StopIteration` becomes the `_EOI` pseudo-token), or raise the
`Unexpected …` `ParseError`. -/
def eat (code : List Char) (k : TokKind) (st : PSt) : Except PErr (List Char × PSt) :=
  if st.tok.1 = k then
    match nextTok code st.rest with
    | .tok k' lx rest => .ok (st.tok.2, ⟨rest, (k', lx)⟩)
    | .eof rest => .ok (st.tok.2, ⟨rest, (.EOI, [])⟩)
    | .err e => .error e
  else if st.tok.1 = .EOI then
    .error (.ParseError (("Unexpected end of file, expecting ").data ++ kindStr k)
      (cur_line code st) (position code st))
  else
    .error (.ParseError
      (("Unexpected token ").data ++ kindStr st.tok.1 ++ (", expecting ").data ++ kindStr k)
      (cur_line code st) (position code st))

/-- `Parser.accept`: eat an optional token kind, reporting whether it was
there (an error raised by the underlying `eat` propagates). -/
def accept (code : List Char) (k : TokKind) (st : PSt) : Except PErr (Bool × PSt) :=
  if st.tok.1 = k then (eat code k st).map (fun p => (true, p.2))
  else .ok (false, st)

mutual

/-- `Parser.parse`: the program entry. -/
def parse (code : List Char) : Nat → PSt → Except PErr (Node × PSt)
  | 0, _ => .error .OutOfFuel
  | fuel + 1, st => do
    let start := position code st
    let (_, st) ← eat code .SOI st
    let (block, st) ← parseTopGen code fuel st
    let (_, st) ← eat code .EOI st
    .ok (.CodeBlockNode (start, position code st) block, st)

/-- The `gen()` loop of `Parser.parse`: functions until `_EOI`. -/
def parseTopGen (code : List Char) : Nat → PSt → Except PErr (List Node × PSt)
  | 0, _ => .error .OutOfFuel
  | fuel + 1, st =>
    if st.tok.1 = .EOI then .ok ([], st)
    else do
      let (n, st) ← parse_function code fuel st
      let (ns, st) ← parseTopGen code fuel st
      .ok (n :: ns, st)

/-- `Parser.parse_function`. -/
def parse_function (code : List Char) : Nat → PSt → Except PErr (Node × PSt)
  | 0, _ => .error .OutOfFuel
  | fuel + 1, st => do
    let start := position code st
    let (externFlag, st) ← accept code .KW_EXTERN st
    let (isFun, st) ← accept code .KW_FUN st
    if isFun then do
      let (name, st) ← eat code .IDENT st
      let (_, st) ← eat code .LEFT_PARENT st
      let (args, st) ← parse_comma_list code fuel .RIGHT_PARENT st
      let (_, st) ← eat code .RIGHT_PARENT st
      if !externFlag then do
        let (body, st) ← parse_codeblock code fuel true st
        .ok (.FunctionNode (start, position code st) name args body, st)
      else
        .ok (.ExternFunctionNode (start, position code st) name args, st)
    else
      parse_codeblock code fuel false st

/-- `Parser.parse_codeblock` (`force` is the keyword argument). -/
def parse_codeblock (code : List Char) : Nat → Bool → PSt → Except PErr (Node × PSt)
  | 0, _, _ => .error .OutOfFuel
  | fuel + 1, force, st => do
    let start := position code st
    let (hasBrace, st) ← accept code .LEFT_BRACE st
    if hasBrace then do
      let (block, st) ← parseBlockGen code fuel st
      let (_, st) ← eat code .RIGHT_BRACE st
      .ok (.CodeBlockNode (start, position code st) block, st)
    else if force then
      .error (.ParseError (("Code block need braces").data) (cur_line code st) (position code st))
    else do
      let (d, st) ← parse_declaration code fuel st
      .ok (.CodeBlockNode (start, position code st) [d], st)

/-- The `gen()` loop of `Parser.parse_codeblock`: statements until `}`. -/
def parseBlockGen (code : List Char) : Nat → PSt → Except PErr (List Node × PSt)
  | 0, _ => .error .OutOfFuel
  | fuel + 1, st =>
    if st.tok.1 = .RIGHT_BRACE then .ok ([], st)
    else do
      let (n, st) ← parse_statement code fuel st
      let (ns, st) ← parseBlockGen code fuel st
      .ok (n :: ns, st)

/-- `Parser.parse_statement`. -/
def parse_statement (code : List Char) : Nat → PSt → Except PErr (Node × PSt)
  | 0, _ => .error .OutOfFuel
  | fuel + 1, st => do
    let start := position code st
    let (isRet, st) ← accept code .KW_RETURN st
    if isRet then do
      let (e, st) ← parse_expression code fuel st
      .ok (.ReturnStatementNode (start, position code st) e, st)
    else do
      let (isWhile, st) ← accept code .KW_WHILE st
      if isWhile then do
        let (c, st) ← parse_expression code fuel st
        let (b, st) ← parse_codeblock code fuel false st
        .ok (.WhileNode (start, position code st) c b, st)
      else
        parse_declaration code fuel st

/-- `Parser.parse_declaration`. -/
def parse_declaration (code : List Char) : Nat → PSt → Except PErr (Node × PSt)
  | 0, _ => .error .OutOfFuel
  | fuel + 1, st => do
    let start := position code st
    let (isVar, st) ← accept code .KW_VAR st
    if isVar then do
      let (id, st) ← eat code .IDENT st
      .ok (.DeclarationNode (start, position code st) id, st)
    else
      parse_assignment code fuel st

/-- `Parser.parse_assignment`: the left-hand side must already be an
`IdentNode` when `=` is accepted, otherwise `Syntax error`. -/
def parse_assignment (code : List Char) : Nat → PSt → Except PErr (Node × PSt)
  | 0, _ => .error .OutOfFuel
  | fuel + 1, st => do
    let start := position code st
    let (left, st) ← parse_expression code fuel st
    let (isEq, st) ← accept code .EQUALS st
    if isEq then
      match left with
      | .IdentNode _ name => do
        let (e, st) ← parse_expression code fuel st
        .ok (.AssignmentNode (start, position code st) name e, st)
      | _ => .error (.ParseError (("Syntax error").data) (cur_line code st) (position code st))
    else
      .ok (left, st)

/-- `Parser.parse_expression`. -/
def parse_expression (code : List Char) : Nat → PSt → Except PErr (Node × PSt)
  | 0, _ => .error .OutOfFuel
  | fuel + 1, st => do
    let (isPar, st) ← accept code .LEFT_PARENT st
    if isPar then do
      let (e, st) ← parse_expression code fuel st
      let (_, st) ← eat code .RIGHT_PARENT st
      .ok (e, st)
    else
      parse_expr_add code fuel st

/-- `Parser.parse_expr_add`: right operand re-enters `parse_expr_add`. -/
def parse_expr_add (code : List Char) : Nat → PSt → Except PErr (Node × PSt)
  | 0, _ => .error .OutOfFuel
  | fuel + 1, st => do
    let start := position code st
    let (left, st) ← parse_expr_sub code fuel st
    let (isAdd, st) ← accept code .BIN_ADD st
    if isAdd then do
      let (right, st) ← parse_expr_add code fuel st
      .ok (.BinaryOperationNode (start, position code st) left .ADD right, st)
    else
      .ok (left, st)

/-- `Parser.parse_expr_sub`: the right operand re-enters `parse_expr_add`,
one level looser than its own. -/
def parse_expr_sub (code : List Char) : Nat → PSt → Except PErr (Node × PSt)
  | 0, _ => .error .OutOfFuel
  | fuel + 1, st => do
    let start := position code st
    let (left, st) ← parse_expr_mult code fuel st
    let (isSub, st) ← accept code .BIN_SUB st
    if isSub then do
      let (right, st) ← parse_expr_add code fuel st
      .ok (.BinaryOperationNode (start, position code st) left .SUB right, st)
    else
      .ok (left, st)

/-- `Parser.parse_expr_mult`. -/
def parse_expr_mult (code : List Char) : Nat → PSt → Except PErr (Node × PSt)
  | 0, _ => .error .OutOfFuel
  | fuel + 1, st => do
    let start := position code st
    let (left, st) ← parse_expr_div code fuel st
    let (isMult, st) ← accept code .BIN_MULT st
    if isMult then do
      let (right, st) ← parse_expr_mult code fuel st
      .ok (.BinaryOperationNode (start, position code st) left .MULT right, st)
    else
      .ok (left, st)

/-- `Parser.parse_expr_div`: the right operand re-enters `parse_expr_mult`. -/
def parse_expr_div (code : List Char) : Nat → PSt → Except PErr (Node × PSt)
  | 0, _ => .error .OutOfFuel
  | fuel + 1, st => do
    let start := position code st
    let (left, st) ← parse_expr_power code fuel st
    let (isDiv, st) ← accept code .BIN_DIV st
    if isDiv then do
      let (right, st) ← parse_expr_mult code fuel st
      .ok (.BinaryOperationNode (start, position code st) left .DIV right, st)
    else
      .ok (left, st)

/-- `Parser.parse_expr_power`. -/
def parse_expr_power (code : List Char) : Nat → PSt → Except PErr (Node × PSt)
  | 0, _ => .error .OutOfFuel
  | fuel + 1, st => do
    let start := position code st
    let (left, st) ← parse_function_call code fuel st
    let (isPow, st) ← accept code .BIN_POWER st
    if isPow then do
      let (right, st) ← parse_expr_power code fuel st
      .ok (.BinaryOperationNode (start, position code st) left .POWER right, st)
    else
      .ok (left, st)

/-- `Parser.parse_function_call`: the callee must already be an `IdentNode`
when `(` is accepted, otherwise `Syntax error`. -/
def parse_function_call (code : List Char) : Nat → PSt → Except PErr (Node × PSt)
  | 0, _ => .error .OutOfFuel
  | fuel + 1, st => do
    let start := position code st
    let (left, st) ← parse_expr_unary code fuel st
    let (isPar, st) ← accept code .LEFT_PARENT st
    if isPar then
      match left with
      | .IdentNode _ name => do
        let (args, st) ← parse_comma_list code fuel .RIGHT_PARENT st
        let (_, st) ← eat code .RIGHT_PARENT st
        .ok (.FunctionCallNode (start, position code st) name args, st)
      | _ => .error (.ParseError (("Syntax error").data) (cur_line code st) (position code st))
    else
      .ok (left, st)

/-- `Parser.parse_expr_unary`. -/
def parse_expr_unary (code : List Char) : Nat → PSt → Except PErr (Node × PSt)
  | 0, _ => .error .OutOfFuel
  | fuel + 1, st => do
    let start := position code st
    if st.tok.1 = .UNOP then do
      let (op, st) ← eat code .UNOP st
      let (operand, st) ← parse_function_call code fuel st
      match unaryOperationOfLexeme op with
      | some u => .ok (.UnaryOperationNode (start, position code st) u operand, st)
      | none => .error .ValueError
    else
      parse_parent_expr code fuel st

/-- `Parser.parse_parent_expr`. -/
def parse_parent_expr (code : List Char) : Nat → PSt → Except PErr (Node × PSt)
  | 0, _ => .error .OutOfFuel
  | fuel + 1, st => do
    let (isPar, st) ← accept code .LEFT_PARENT st
    if isPar then do
      let (e, st) ← parse_expression code fuel st
      let (_, st) ← eat code .RIGHT_PARENT st
      .ok (e, st)
    else
      parse_value code fuel st

/-- `Parser.parse_value`: a `NUMBER` or an `IDENT`; otherwise the
`Syntax error` raised at the recorded start position and its line. -/
def parse_value (code : List Char) : Nat → PSt → Except PErr (Node × PSt)
  | 0, _ => .error .OutOfFuel
  | _fuel + 1, st => do
    let start := position code st
    if st.tok.1 = .NUMBER then do
      let (v, st) ← eat code .NUMBER st
      .ok (.ValueNode (start, position code st) v, st)
    else if st.tok.1 = .IDENT then do
      let (id, st) ← eat code .IDENT st
      .ok (.IdentNode (start, position code st) id, st)
    else
      .error (.ParseError (("Syntax error").data) (get_line code start.1) start)

/-- `Parser.parse_comma_list`. -/
def parse_comma_list (code : List Char) : Nat → TokKind → PSt → Except PErr (List Node × PSt)
  | 0, _, _ => .error .OutOfFuel
  | fuel + 1, close, st =>
    if st.tok.1 = close then .ok ([], st)
    else do
      let (a, st) ← parse_expression code fuel st
      let (rest, st) ← parseCommaLoop code fuel st
      .ok (a :: rest, st)

/-- The `while self.accept("COMMA")` loop of `Parser.parse_comma_list`. -/
def parseCommaLoop (code : List Char) : Nat → PSt → Except PErr (List Node × PSt)
  | 0, _ => .error .OutOfFuel
  | fuel + 1, st => do
    let (isComma, st) ← accept code .COMMA st
    if isComma then do
      let (e, st) ← parse_expression code fuel st
      let (es, st) ← parseCommaLoop code fuel st
      .ok (e :: es, st)
    else
      .ok ([], st)

end

/-- `Parser.__init__(code)` without the `incomplete` flag: the lookahead is
the `_SOI` pseudo-token and nothing is consumed yet. -/
def Parser_init (code : List Char) : PSt := ⟨code, (.SOI, [])⟩

/-- The whole pipeline `Parser(code).parse()`, returning the root node. The
fuel bounds the recursion depth only; 64 is ample for every input used in the
theorems (none comes close to exhausting it). -/
def parseProgram (code : List Char) : Except PErr Node :=
  (parse code 64 (Parser_init code)).map (fun p => p.1)

/-! ### Claim-side auxiliary definitions -/

/-- The immediate children a node's `visit` method passes to the callback,
as the amended claim describes them: the listed fields in left-to-right order
for the variants whose class overrides `visit`, and nothing for
`DeclarationNode`, `AssignmentNode`, `ValueNode` and `IdentNode`, which
inherit the childless `BaseNode.visit`. -/
def visitedChildren : Node → List Node
  | .DeclarationNode _ _ => []
  | .AssignmentNode _ _ _ => []
  | .ValueNode _ _ => []
  | .IdentNode _ _ => []
  | .BinaryOperationNode _ l _ r => [l, r]
  | .UnaryOperationNode _ _ o => [o]
  | .ReturnStatementNode _ e => [e]
  | .CodeBlockNode _ bs => bs
  | .WhileNode _ c b => [c, b]
  | .FunctionNode _ _ args b => args ++ [b]
  | .ExternFunctionNode _ _ args => args
  | .FunctionCallNode _ _ args => args

/-- Lexicographic order on (line, column) pairs, the claims' `start ≤ end`. -/
def lcLeB (a b : LineCol) : Bool := a.1 < b.1 || (a.1 == b.1 && a.2 ≤ b.2)

/-- The true 1-based line/column of the character at offset `p`, following
the claim's words: the line index is one more than the number of newlines
before the offset, the column counts from the character after the last
newline before the offset. -/
def trueLineCol (code : List Char) (p : Nat) : LineCol :=
  (1 + (code.take p).count '\n',
    ((code.take p).reverse.takeWhile (fun c => c ≠ '\n')).length + 1)

/-- A concrete two-level expression tree (spans are immaterial to the
visitor): `BinaryOp(BinaryOp(Value 1, ADD, Value 2), SUB, Value 3)`. -/
def exTree : Node :=
  .BinaryOperationNode ((1, 1), (1, 1))
    (.BinaryOperationNode ((1, 1), (1, 1))
      (.ValueNode ((1, 1), (1, 1)) ['1']) .ADD (.ValueNode ((1, 1), (1, 1)) ['2']))
    .SUB (.ValueNode ((1, 1), (1, 1)) ['3'])

/-! ### The claims -/

/-- C1, counterexample: `visit` is not a whole-tree post-order traversal.
On the two-level tree `exTree`, the recording callback observes only the two
immediate children and the node itself — three invocations, although the tree
has five nodes — so the callback is not invoked once per node of the whole
tree, and the sequence differs from the claim's post-order. -/
theorem C1_visit_not_whole_tree_postorder :
    visitList exTree ≠ postOrder exTree ∧
      (visitList exTree).length = 3 ∧ countNodes exTree = 5 := by
  refine ⟨?_, by simp [exTree, visitList], by simp [countNodes, exTree, postOrder, postOrderList]⟩
  intro h
  have := congrArg List.length h
  simp [exTree, visitList, postOrder, postOrderList] at this

/-- C1, amended: calling `visit` with a recording callback invokes the
callback once on each node the variant's `visit` method lists — the immediate
children in left-to-right field order for `BinaryOp`, `UnaryOp`, `Return`,
`CodeBlock`, `While`, `Function`, `ExternFunction` and `FunctionCall`, and
nothing for `Declaration`, `Assignment`, `Value` and `Ident`, which inherit
the childless `BaseNode.visit` — and then once on the node itself. It does
not recurse into grandchildren, so the observed sequence is the immediate
visited children followed by the node, not a whole-tree post-order. -/
theorem C1_visit_children_then_self (n : Node) :
    visitList n = visitedChildren n ++ [n] := by
  cases n <;> simp [visitList, visitedChildren]

/-- C2: parsing `"1 - 2 - 3"` produces the right-nested tree
`BinaryOp(Value 1, SUB, BinaryOp(Value 2, SUB, Value 3))` — the subtraction
rule's right operand re-enters `parse_expr_add`, so the second subtraction
binds to the right. The program entry wraps the expression in the root block
and the brace-less singleton block; the spans are the computed ones. -/
theorem C2_sub_right_nested :
    parseProgram (("1 - 2 - 3").data) = .ok
      (.CodeBlockNode ((1, 1), (1, 10))
        [.CodeBlockNode ((1, 2), (1, 10))
          [.BinaryOperationNode ((1, 2), (1, 10))
            (.ValueNode ((1, 2), (1, 4)) ['1'])
            .SUB
            (.BinaryOperationNode ((1, 6), (1, 10))
              (.ValueNode ((1, 6), (1, 8)) ['2'])
              .SUB
              (.ValueNode ((1, 10), (1, 10)) ['3']))]]) := rfl

/-- C3: evaluation of the tokenizer at the failing inputs `0x1A` and `0o17`.
The `NUMBER` pattern's alternatives are tried left to right and the decimal
alternative `[0-9]+(\.[0-9]+)?` already matches the leading `0`, so a
hexadecimal or octal literal is split into a `NUMBER` token holding only `0`
followed by an `IDENT` token — never a single `NUMBER` token holding the
whole literal text as the claim states. -/
theorem C3_hex_octal_literals_split :
    lexAll (("0x1A").data) = ([(.NUMBER, ['0']), (.IDENT, ['x', '1', 'A'])], .done) ∧
      lexAll (("0o17").data) = ([(.NUMBER, ['0']), (.IDENT, ['o', '1', '7'])], .done) := by
  exact ⟨by decide, by decide⟩

/-- C5, counterexample: parsing `"1 = 2"` does raise `Syntax error`, but the
resolved position is (1, 6) — the consumption offset after the lookahead
token following `=` (the `2`) has been fetched — not the position of the `=`
token, which occupies column 3 (and ends before column 4). -/
theorem C5_assignment_error_position_not_at_equals :
    parseProgram (("1 = 2").data) =
      .error (.ParseError (("Syntax error").data) (("1 = 2").data) (1, 6)) ∧
      ((1, 6) : LineCol) ≠ (1, 3) ∧ ((1, 6) : LineCol) ≠ (1, 4) := by
  exact ⟨rfl, by decide, by decide⟩

/-- C5, amended: parsing `"1 = 2"` raises a `Syntax error` whose resolved
position is (1, 6): after `=` is accepted the parser has already fetched the
next lookahead token `2`, so the reported position is the consumption offset
after that token, the end of the input. -/
theorem C5_assignment_error_at_1_6 :
    parseProgram (("1 = 2").data) =
      .error (.ParseError (("Syntax error").data) (("1 = 2").data) (1, 6)) := rfl

/-- C6, counterexample: parsing `"fun f() return 1"` does raise the
`Code block need braces` error, but the resolved position is (1, 15) — the
consumption offset after the lookahead token `return` was fetched — not the
position immediately after `)`, which is column 8. -/
theorem C6_missing_brace_position_not_after_paren :
    parseProgram (("fun f() return 1").data) =
      .error (.ParseError (("Code block need braces").data)
        (("fun f() return 1").data) (1, 15)) ∧
      ((1, 15) : LineCol) ≠ (1, 8) := by
  exact ⟨rfl, by decide⟩

/-- C6, amended: parsing `"fun f() return 1"` raises the
`Code block need braces` syntax error at position (1, 15): when
`parse_codeblock(force=True)` runs, the lookahead token `return` has already
been consumed from the character stream, so the resolved position is the
offset after `return`, not the offset just after `)`. -/
theorem C6_missing_brace_error_at_1_15 :
    parseProgram (("fun f() return 1").data) =
      .error (.ParseError (("Code block need braces").data)
        (("fun f() return 1").data) (1, 15)) := rfl

/-- C8: evaluation of `linecol_from_position` at the failing input. The scan
accumulates only the line lengths and never counts the newline separators, so
for `"a\nb"` at offset 2 — the character `b`, truly line 2 column 1 — it
returns (2, 2). -/
theorem C8_linecol_drops_newlines :
    linecol_from_position (("a\nb").data) 2 = (2, 2) ∧
      (("a\nb").data)[2]? = some 'b' ∧
      trueLineCol (("a\nb").data) 2 = (2, 1) ∧
      ((2, 2) : LineCol) ≠ (2, 1) := by
  exact ⟨by decide, by decide, by decide, by decide⟩

/-- C9: evaluation of the parser at the failing input `"{\n\nreturn\n1}"`.
The input parses successfully, and the resulting `ReturnStatement` node has
span start (4, 3) and span end (4, 2): the start offset 9 equals the sum of
the split line lengths, so `linecol_from_position` resolves it inside the
last line at column 3, while the larger end offset 12 falls through to the
fallback branch and resolves to column 2. The node's span start is not ≤ its
span end, and its child `ValueNode` starts at (4, 2), before the parent's
start, so the child's span does not lie within the parent's. -/
theorem C9_span_invariant_violated :
    parseProgram (("\x7b\n\nreturn\n1\x7d").data) = .ok
      (.CodeBlockNode ((1, 1), (4, 2))
        [.CodeBlockNode ((1, 2), (4, 2))
          [.ReturnStatementNode ((4, 3), (4, 2))
            (.ValueNode ((4, 2), (4, 2)) ['1'])]]) ∧
      lcLeB (4, 3) (4, 2) = false := by
  exact ⟨rfl, by decide⟩

/-! ### Helper lemmas on line splitting and decimal digits -/

theorem splitNl_of_not_mem (cs : List Char) (h : '\n' ∉ cs) : splitNl cs = [cs] := by
  induction cs with
  | nil => rfl
  | cons c t ih =>
    have hc : c ≠ '\n' := fun hc => h (hc ▸ List.mem_cons_self c t)
    have ht : '\n' ∉ t := fun hm => h (List.mem_cons_of_mem c hm)
    simp [splitNl, hc, ih ht]

theorem splitNl_append_cons (a b : List Char) (h : '\n' ∉ a) :
    splitNl (a ++ '\n' :: b) = a :: splitNl b := by
  induction a with
  | nil => simp [splitNl]
  | cons c t ih =>
    have hc : c ≠ '\n' := fun hc => h (hc ▸ List.mem_cons_self c t)
    have ht : '\n' ∉ t := fun hm => h (List.mem_cons_of_mem c hm)
    simp only [List.cons_append, splitNl, if_neg hc, List.append_eq, ih ht]

theorem digitChar_ne_nl (d : Nat) (h : d < 10) : Nat.digitChar d ≠ '\n' := by
  interval_cases d <;> decide

theorem decDigits_not_nl (n : Nat) : '\n' ∉ decDigits n := by
  induction n using Nat.strong_induction_on with
  | _ n ih =>
    unfold decDigits
    split
    · simpa using (digitChar_ne_nl n (by omega)).symm
    · rename_i h
      intro hm
      rcases List.mem_append.1 hm with h1 | h2
      · exact ih (n / 10) (Nat.div_lt_self (by omega) (by omega)) h1
      · have : '\n' = Nat.digitChar (n % 10) := by simpa using h2
        exact digitChar_ne_nl (n % 10) (Nat.mod_lt n (by omega)) this.symm

theorem decDigits_length (n : Nat) : (decDigits n).length = digitCount n := by
  induction n using Nat.strong_induction_on with
  | _ n ih =>
    unfold decDigits digitCount
    split
    · rfl
    · rename_i h
      simp [ih (n / 10) (Nat.div_lt_self (by omega) (by omega))]

/-- C7: the rendered diagnostic of a `ParseError` with message `m`, source
line `s`, line number `N` and column `c` is exactly three lines: line 1 is
`m`; line 2 is the decimal digits of `N`, then `"| "`, then `s`; line 3 is
exactly `c + digit-count(N)` spaces followed by a single `^`. -/
theorem C7_diagnostic_three_lines (m s : List Char) (N c : Nat)
    (hm : '\n' ∉ m) (hs : '\n' ∉ s) :
    splitNl (renderParseError m s (N, c)) =
      [m, decDigits N ++ '|' :: ' ' :: s,
        List.replicate (c + digitCount N) ' ' ++ ['^']] := by
  have h2 : '\n' ∉ decDigits N ++ '|' :: ' ' :: s := by
    intro hmem
    rcases List.mem_append.1 hmem with h1 | h1
    · exact decDigits_not_nl N h1
    · simp only [List.mem_cons] at h1
      rcases h1 with h1 | h1 | h1
      · exact absurd h1 (by decide)
      · exact absurd h1 (by decide)
      · exact hs h1
  have h3 : '\n' ∉ List.replicate (c + digitCount N) ' ' ++ ['^'] := by
    intro hmem
    rcases List.mem_append.1 hmem with h1 | h1
    · exact absurd (List.eq_of_mem_replicate h1) (by decide)
    · simp at h1
  unfold renderParseError
  rw [decDigits_length, List.append_assoc]
  rw [show ('\n' :: (decDigits N ++ '|' :: ' ' :: s)) ++
        '\n' :: (List.replicate (c + digitCount N) ' ' ++ ['^']) =
      '\n' :: ((decDigits N ++ '|' :: ' ' :: s) ++
        '\n' :: (List.replicate (c + digitCount N) ' ' ++ ['^'])) from rfl]
  rw [splitNl_append_cons _ _ hm, splitNl_append_cons _ _ h2,
    splitNl_of_not_mem _ h3]

/-- C7, witness: the rendering of the `"1 = 2"` syntax error is the three
claimed lines. -/
theorem C7_diagnostic_three_lines_witness :
    ('\n' ∉ ("Syntax error").data) ∧ ('\n' ∉ ("1 = 2").data) ∧
      splitNl (renderParseError (("Syntax error").data) (("1 = 2").data) (1, 6)) =
        [("Syntax error").data, decDigits 1 ++ '|' :: ' ' :: ("1 = 2").data,
          List.replicate (6 + digitCount 1) ' ' ++ ['^']] :=
  ⟨by decide, by decide,
    C7_diagnostic_three_lines (("Syntax error").data) (("1 = 2").data) 1 6
      (by decide) (by decide)⟩

/-! ### Helper lemmas on the tokenizer -/

theorem matchLit_some (lit : List Char) :
    ∀ cs rest, matchLit lit cs = some rest → cs = lit ++ rest := by
  induction lit with
  | nil => intro cs rest h; simpa [matchLit] using h
  | cons a as ih =>
    intro cs rest h
    match cs with
    | [] => simp [matchLit] at h
    | c :: t =>
      by_cases hac : a = c
      · subst hac
        simp only [matchLit, if_pos rfl] at h
        simpa using ih t rest h
      · simp [matchLit, hac] at h

theorem litTok_some (lit : List Char) (cs lx rest : List Char)
    (h : litTok lit cs = some (lx, rest)) : lx = lit ∧ cs = lit ++ rest := by
  unfold litTok at h
  cases hm : matchLit lit cs with
  | none => simp [hm] at h
  | some r =>
    rw [hm] at h
    simp only [Option.map_some'] at h
    injection h with h'
    injection h' with h1 h2
    refine ⟨h1.symm, ?_⟩
    have h3 := matchLit_some lit cs r hm
    rw [h2] at h3
    exact h3

theorem litTok_consumes (lit : List Char) (hne : lit ≠ []) (cs lx rest : List Char)
    (h : litTok lit cs = some (lx, rest)) : rest.length < cs.length := by
  obtain ⟨-, h2⟩ := litTok_some lit cs lx rest h
  subst h2
  simp only [List.length_append]
  cases lit with
  | nil => exact absurd rfl hne
  | cons a as => simp

theorem dropWhile_length_le (p : Char → Bool) (l : List Char) :
    (l.dropWhile p).length ≤ l.length :=
  (List.dropWhile_sublist (l := l) (p := p)).length_le

theorem matchIdent_consumes (cs lx rest : List Char)
    (h : matchIdent cs = some (lx, rest)) : rest.length < cs.length := by
  match cs with
  | [] => simp [matchIdent] at h
  | c :: t =>
    by_cases hs : isIdentStart c
    · simp only [matchIdent, if_pos hs, Option.some.injEq, Prod.mk.injEq] at h
      obtain ⟨-, h2⟩ := h
      subst h2
      exact Nat.lt_succ_of_le (dropWhile_length_le _ t)
    · simp [matchIdent, hs] at h

theorem matchDecimal_consumes (cs lx rest : List Char)
    (h : matchDecimal cs = some (lx, rest)) : rest.length < cs.length := by
  match cs with
  | [] => simp [matchDecimal] at h
  | c :: t =>
    have hdw := dropWhile_length_le Char.isDigit t
    suffices hle : rest.length ≤ t.length by
      simp only [List.length_cons]
      omega
    by_cases hd : c.isDigit
    case neg => simp [matchDecimal, hd] at h
    simp only [matchDecimal, if_pos hd] at h
    split at h
    · -- `t.dropWhile` begins with a dot
      rename_i r2 heq
      have hr2 : r2.length < t.length := by
        have h1 : ('.' :: r2).length ≤ t.length := heq ▸ hdw
        simpa using h1
      cases r2 with
      | nil =>
        -- dot at the very end of the input
        simp only [Option.some.injEq, Prod.mk.injEq] at h
        obtain ⟨-, h2⟩ := h
        subst h2
        simp only [List.length_cons, List.length_nil] at hr2 ⊢
        omega
      | cons d r4 =>
        by_cases hd2 : d.isDigit
        · -- fraction present: the rest drops the fraction digits
          simp only [if_pos hd2, Option.some.injEq, Prod.mk.injEq] at h
          obtain ⟨-, h2⟩ := h
          subst h2
          have h5 := dropWhile_length_le Char.isDigit (d :: r4)
          simp only [List.length_cons] at hr2 h5 ⊢
          omega
        · -- dot not followed by a digit: the rest keeps the dot
          simp only [if_neg hd2, Option.some.injEq, Prod.mk.injEq] at h
          obtain ⟨-, h2⟩ := h
          subst h2
          simp only [List.length_cons] at hr2 ⊢
          omega
    · -- no dot after the digits: the rest drops the digit run
      injection h with h'
      injection h' with h1 h2
      subst h2
      exact hdw

theorem matchRadix_consumes (tag : Char) (digitP : Char → Bool) (cs lx rest : List Char)
    (h : matchRadix tag digitP cs = some (lx, rest)) : rest.length < cs.length := by
  unfold matchRadix at h
  cases hm : matchLit ['0', tag] cs with
  | none => rw [hm] at h; exact Option.noConfusion h
  | some r =>
    rw [hm] at h
    have hcs : cs = '0' :: tag :: r := matchLit_some _ cs r hm
    subst hcs
    match r, h with
    | [], h => exact Option.noConfusion h
    | d :: r3, h =>
      by_cases hd : digitP d
      · simp only [if_pos hd, Option.some.injEq, Prod.mk.injEq] at h
        obtain ⟨-, h2⟩ := h
        subst h2
        have h5 := dropWhile_length_le digitP (d :: r3)
        simp only [List.length_cons] at h5 ⊢
        omega
      · simp only [if_neg hd] at h
        exact Option.noConfusion h

theorem matchNumber_consumes (cs lx rest : List Char)
    (h : matchNumber cs = some (lx, rest)) : rest.length < cs.length := by
  unfold matchNumber at h
  cases h1 : matchDecimal cs with
  | some r =>
    rw [h1] at h
    cases h
    exact matchDecimal_consumes cs lx rest h1
  | none =>
    rw [h1] at h
    cases h2 : matchRadix 'x' isHexDigit cs with
    | some r =>
      rw [h2] at h
      cases h
      exact matchRadix_consumes 'x' isHexDigit cs lx rest h2
    | none =>
      rw [h2] at h
      exact matchRadix_consumes 'o' isOctDigit cs lx rest h

theorem matchIgnore_consumes (cs lx rest : List Char)
    (h : matchIgnore cs = some (lx, rest)) : rest.length < cs.length := by
  match cs with
  | [] => simp [matchIgnore] at h
  | c :: t =>
    by_cases hs : isIgnoreChar c
    · simp only [matchIgnore, if_pos hs, Option.some.injEq, Prod.mk.injEq] at h
      obtain ⟨-, h2⟩ := h
      subst h2
      exact Nat.lt_succ_of_le (dropWhile_length_le _ t)
    · simp [matchIgnore, hs] at h

theorem TOKENS_consume :
    ∀ p ∈ TOKENS, ∀ cs lx rest, p.2 cs = some (lx, rest) → rest.length < cs.length := by
  intro p hp
  fin_cases hp
  case _ => exact litTok_consumes _ (by decide)
  case _ => exact litTok_consumes _ (by decide)
  case _ => exact litTok_consumes _ (by decide)
  case _ => exact litTok_consumes _ (by decide)
  case _ => exact litTok_consumes _ (by decide)
  case _ => exact litTok_consumes _ (by decide)
  case _ => exact litTok_consumes _ (by decide)
  case _ => exact litTok_consumes _ (by decide)
  case _ => exact litTok_consumes _ (by decide)
  case _ => exact litTok_consumes _ (by decide)
  case _ => exact litTok_consumes _ (by decide)
  case _ => exact matchIdent_consumes
  case _ => exact matchNumber_consumes
  case _ => exact litTok_consumes _ (by decide)
  case _ => exact litTok_consumes _ (by decide)
  case _ => exact litTok_consumes _ (by decide)
  case _ => exact litTok_consumes _ (by decide)
  case _ => exact litTok_consumes _ (by decide)
  case _ => exact litTok_consumes _ (by decide)
  case _ => exact litTok_consumes _ (by decide)
  case _ => exact litTok_consumes _ (by decide)
  case _ => exact litTok_consumes _ (by decide)
  case _ => exact litTok_consumes _ (by decide)
  case _ => exact matchIgnore_consumes

theorem firstMatch_consumes_of (L : List (TokKind × (List Char → Option (List Char × List Char))))
    (hL : ∀ p ∈ L, ∀ cs lx rest, p.2 cs = some (lx, rest) → rest.length < cs.length) :
    ∀ cs k lx rest, firstMatch L cs = some (k, lx, rest) → rest.length < cs.length := by
  induction L with
  | nil => intro cs k lx rest h; simp [firstMatch] at h
  | cons p rs ih =>
    intro cs k lx rest h
    match p, h with
    | (kp, mp), h =>
      unfold firstMatch at h
      cases hm : mp cs with
      | some r =>
        rw [hm] at h
        match r, hm, h with
        | (lx', rest'), hm, h =>
          injection h with h'
          injection h' with hk h''
          injection h'' with hlx hrest
          subst hlx
          subst hrest
          exact hL (kp, mp) (List.mem_cons_self _ _) cs lx' rest' hm
      | none =>
        rw [hm] at h
        exact ih (fun q hq => hL q (List.mem_cons_of_mem _ hq)) cs k lx rest h

theorem firstMatch_consumes (cs : List Char) (k : TokKind) (lx rest : List Char)
    (h : firstMatch TOKENS cs = some (k, lx, rest)) : rest.length < cs.length :=
  firstMatch_consumes_of TOKENS TOKENS_consume cs k lx rest h

theorem lexGo_eq_lexAll (fuel : Nat) :
    ∀ cs : List Char, cs.length ≤ fuel → lexGo fuel cs = lexAll cs := by
  induction fuel using Nat.strong_induction_on with
  | _ fuel ih =>
    intro cs hlen
    match fuel, cs with
    | fuel, [] => simp [lexGo, lexAll]
    | 0, c :: t => simp at hlen
    | f + 1, c :: t =>
      show lexGo (f + 1) (c :: t) = lexGo (t.length + 1) (c :: t)
      simp only [List.length_cons] at hlen
      cases hm : firstMatch TOKENS (c :: t) with
      | none => simp only [lexGo, hm]
      | some r =>
        match r, hm with
        | (k, lx, rest), hm =>
          have hr : rest.length ≤ t.length := by
            have hlt := firstMatch_consumes (c :: t) k lx rest hm
            simp only [List.length_cons] at hlt
            omega
          have e1 : lexGo f rest = lexAll rest := ih f (by omega) rest (by omega)
          have e2 : lexGo t.length rest = lexAll rest := ih t.length (by omega) rest hr
          simp only [lexGo, hm, e1, e2]

theorem lexAll_step (cs : List Char) (k : TokKind) (lx rest : List Char)
    (hne : cs ≠ []) (hm : firstMatch TOKENS cs = some (k, lx, rest))
    (hk : k ≠ .IGNORE) :
    lexAll cs = ((k, lx) :: (lexAll rest).1, (lexAll rest).2) := by
  match cs with
  | [] => exact absurd rfl hne
  | c :: t =>
    have hr : rest.length ≤ t.length := by
      have hlt := firstMatch_consumes (c :: t) k lx rest hm
      simp only [List.length_cons] at hlt
      omega
    show lexGo (t.length + 1) (c :: t) = _
    simp only [lexGo, hm, if_neg hk]
    rw [lexGo_eq_lexAll t.length rest hr]

theorem firstMatch_mem (L : List (TokKind × (List Char → Option (List Char × List Char))))
    (cs : List Char) (k : TokKind) (lx rest : List Char)
    (h : firstMatch L cs = some (k, lx, rest)) :
    ∃ m, (k, m) ∈ L ∧ m cs = some (lx, rest) := by
  induction L with
  | nil => simp [firstMatch] at h
  | cons p rs ih =>
    match p, h with
    | (kp, mp), h =>
      unfold firstMatch at h
      cases hm : mp cs with
      | some r =>
        rw [hm] at h
        match r, hm, h with
        | (lx', rest'), hm, h =>
          injection h with h'
          injection h' with hk h''
          injection h'' with hlx hrest
          subst hk
          subst hlx
          subst hrest
          exact ⟨mp, List.mem_cons_self _ _, hm⟩
      | none =>
        rw [hm] at h
        obtain ⟨m, hmem, hcs⟩ := ih h
        exact ⟨m, List.mem_cons_of_mem _ hmem, hcs⟩

/-- The one-character rules `LESSTHAN` and `GREATERTHAN` precede the
two-character rules `LESSEQUAL` and `GREATEREQUAL` in `TOKENS`, and whenever
`<=` (resp. `>=`) matches at the current position, `<` (resp. `>`) already
matches, so the first match is never the two-character rule. -/
theorem firstMatch_ne_le_ge (cs : List Char) (k : TokKind) (lx rest : List Char)
    (h : firstMatch TOKENS cs = some (k, lx, rest)) :
    k ≠ TokKind.LESSEQUAL ∧ k ≠ TokKind.GREATEREQUAL := by
  constructor
  · intro hk
    subst hk
    obtain ⟨m, hmem, hcs⟩ := firstMatch_mem TOKENS cs .LESSEQUAL lx rest h
    simp only [TOKENS, List.mem_cons, List.not_mem_nil, or_false, Prod.mk.injEq] at hmem
    rcases hmem with hm|hm|hm|hm|hm|hm|hm|hm|hm|hm|hm|hm|hm|hm|hm|hm|hm|hm|hm|hm|hm|hm|hm|hm <;>
      first
        | exact absurd hm.1 (by decide)
        | skip
    obtain ⟨-, hm2⟩ := hm
    subst hm2
    obtain ⟨-, hcs2⟩ := litTok_some _ cs lx rest hcs
    subst hcs2
    have hcomp : firstMatch TOKENS ('<' :: '=' :: rest) =
        some (.LESSTHAN, ['<'], '=' :: rest) := rfl
    rw [show (['<', '='] : List Char) ++ rest = '<' :: '=' :: rest from rfl, hcomp] at h
    injection h with h'
    injection h' with hk1 hk2
    exact TokKind.noConfusion hk1
  · intro hk
    subst hk
    obtain ⟨m, hmem, hcs⟩ := firstMatch_mem TOKENS cs .GREATEREQUAL lx rest h
    simp only [TOKENS, List.mem_cons, List.not_mem_nil, or_false, Prod.mk.injEq] at hmem
    rcases hmem with hm|hm|hm|hm|hm|hm|hm|hm|hm|hm|hm|hm|hm|hm|hm|hm|hm|hm|hm|hm|hm|hm|hm|hm <;>
      first
        | exact absurd hm.1 (by decide)
        | skip
    obtain ⟨-, hm2⟩ := hm
    subst hm2
    obtain ⟨-, hcs2⟩ := litTok_some _ cs lx rest hcs
    subst hcs2
    have hcomp : firstMatch TOKENS ('>' :: '=' :: rest) =
        some (.GREATERTHAN, ['>'], '=' :: rest) := rfl
    rw [show (['>', '='] : List Char) ++ rest = '>' :: '=' :: rest from rfl, hcomp] at h
    injection h with h'
    injection h' with hk1 hk2
    exact TokKind.noConfusion hk1

theorem lexGo_kinds_ne_le_ge (fuel : Nat) :
    ∀ cs (t : TokKind × List Char), t ∈ (lexGo fuel cs).1 →
      t.1 ≠ TokKind.LESSEQUAL ∧ t.1 ≠ TokKind.GREATEREQUAL := by
  induction fuel with
  | zero =>
    intro cs t ht
    match cs with
    | [] => simp [lexGo] at ht
    | c :: cs' => simp [lexGo] at ht
  | succ f ih =>
    intro cs t ht
    match cs with
    | [] => simp [lexGo] at ht
    | c :: cs' =>
      cases hm : firstMatch TOKENS (c :: cs') with
      | none => simp [lexGo, hm] at ht
      | some r =>
        match r, hm with
        | (k, lx, rest), hm =>
          simp only [lexGo, hm] at ht
          by_cases hk : k = TokKind.IGNORE
          · rw [if_pos hk] at ht
            exact ih rest t ht
          · rw [if_neg hk] at ht
            rcases List.mem_cons.1 ht with h1 | h1
            · subst h1
              exact firstMatch_ne_le_ge (c :: cs') k lx rest hm
            · exact ih rest t h1

/-- The six keyword rules of the claim: each keyword's token kind and its
exact letters (`not` is registered as the `UNOP` rule). All of them are
ordered before the generic `IDENT` rule in `TOKENS`. -/
def keywordTable : List (TokKind × List Char) :=
  [ (.KW_VAR, ['v', 'a', 'r'])
  , (.KW_FUN, ['f', 'u', 'n'])
  , (.KW_WHILE, ['w', 'h', 'i', 'l', 'e'])
  , (.KW_RETURN, ['r', 'e', 't', 'u', 'r', 'n'])
  , (.KW_EXTERN, ['e', 'x', 't', 'e', 'r', 'n'])
  , (.UNOP, ['n', 'o', 't']) ]

/-- C4: for every keyword (var, fun, while, return, extern, not) and every
nonempty suffix of identifier characters, tokenizing the keyword immediately
followed by the suffix emits the keyword's token first (with the keyword as
its lexeme) and then tokenizes the remaining suffix separately: the keyword
rules precede the identifier rule in the ordered table and matching is
anchored-prefix with no word-boundary check. -/
theorem C4_keyword_prefix_tokenized_as_keyword (k : TokKind) (kw : List Char)
    (hmem : (k, kw) ∈ keywordTable) (s : List Char) (_hne : s ≠ [])
    (_hid : ∀ c ∈ s, isIdentChar c = true) :
    lexAll (kw ++ s) = ((k, kw) :: (lexAll s).1, (lexAll s).2) := by
  fin_cases hmem <;>
    exact lexAll_step _ _ _ _ (by simp) rfl (by decide)

/-- C4, witness: `"variable"` tokenizes as `KW_VAR "var"` followed by the
tokens of `"iable"` (a single `IDENT`). -/
theorem C4_keyword_prefix_tokenized_as_keyword_witness :
    ((TokKind.KW_VAR, ['v', 'a', 'r']) ∈ keywordTable) ∧
      (['i', 'a', 'b', 'l', 'e'] : List Char) ≠ [] ∧
      (∀ c ∈ (['i', 'a', 'b', 'l', 'e'] : List Char), isIdentChar c = true) ∧
      lexAll (['v', 'a', 'r'] ++ ['i', 'a', 'b', 'l', 'e']) =
        ((TokKind.KW_VAR, ['v', 'a', 'r']) :: (lexAll ['i', 'a', 'b', 'l', 'e']).1,
          (lexAll ['i', 'a', 'b', 'l', 'e']).2) :=
  ⟨by decide, by decide, by decide,
    C4_keyword_prefix_tokenized_as_keyword .KW_VAR ['v', 'a', 'r'] (by decide)
      ['i', 'a', 'b', 'l', 'e'] (by decide) (by decide)⟩

/-- C10: for every input, the tokenizer never emits a `LESSEQUAL` or
`GREATEREQUAL` token — the one-character rules `LESSTHAN`/`GREATERTHAN`
precede the two-character rules in the ordered table and matching takes the
first anchored match — and the inputs `<=` and `>=` tokenize as
`LESSTHAN`+`EQUALS` and `GREATERTHAN`+`EQUALS`. -/
theorem C10_lessequal_greaterequal_never_emitted :
    (∀ (cs : List Char) (t : TokKind × List Char), t ∈ (lexAll cs).1 →
      t.1 ≠ TokKind.LESSEQUAL ∧ t.1 ≠ TokKind.GREATEREQUAL) ∧
      lexAll ['<', '='] = ([(.LESSTHAN, ['<']), (.EQUALS, ['='])], .done) ∧
      lexAll ['>', '='] = ([(.GREATERTHAN, ['>']), (.EQUALS, ['='])], .done) :=
  ⟨fun cs t ht => lexGo_kinds_ne_le_ge cs.length cs t ht, by decide, by decide⟩

/-- C10, witness: the theorem applied to the `LESSTHAN` token actually
emitted for the input `<=`. -/
theorem C10_lessequal_greaterequal_never_emitted_witness :
    (((TokKind.LESSTHAN, ['<']) : TokKind × List Char) ∈ (lexAll ['<', '=']).1) ∧
      TokKind.LESSTHAN ≠ TokKind.LESSEQUAL ∧ TokKind.LESSTHAN ≠ TokKind.GREATEREQUAL :=
  ⟨by decide,
    C10_lessequal_greaterequal_never_emitted.1 ['<', '='] (.LESSTHAN, ['<']) (by decide)⟩

end EvaGen
